import Mathlib

/-!
Verification of the history-sanitization pipeline of `repo_cleaner`
(`src/main.rs`).

The program is a single `main` function that, per repository of the
configured list, either runs the Prepare phase (clone-or-open the mirror,
pull, write a whole-repository tar backup, then per branch write a branch
tar backup and run `git filter-repo` with a generated name callback and a
generated email callback, then run a gc command, then optionally re-sign)
or, with the `--commit` flag, the Publish phase (`git push --all --force`
in each mirror directory).

The embedding below models:
  * the generated Python callback texts and their evaluation semantics
    (`emailCleaner`, `nameCleaner`, `emailCleanerSrc`, `nameCleanerSrc`);
  * the backup paths built with `Path::join` and `Path::with_extension`
    (`pathJoin`, `withExtension`, `wholeBackupPath`, `branchBackupPath`);
  * the control flow of `main` as a trace of externally visible events per
    repository (`processRepo`) and over the fleet (`prepareFleet`,
    `publishFleet`), driven by an environment `RepoEnv` recording the
    outcomes of the external git/tar operations.

Logging (`info!`/`warn!` lines other than the resign warning), the
progress spinner and the `println!` of the remote list are omitted from
the traces; external commands whose captured exit status the program
ignores are represented by the event of their invocation.
-/

namespace RepoCleaner

/-! ## Python string and dict semantics used by the generated callbacks -/

/-- `leadsWith pat s` is true when `pat` is an initial segment of `s`. -/
def leadsWith : List Char → List Char → Bool
  | [], _ => true
  | _ :: _, [] => false
  | a :: as, b :: bs => a == b && leadsWith as bs

/-- `occursIn pat s`: `pat` occurs as a contiguous substring of `s`.
This is Python's `pat in s` test on strings (the empty pattern occurs in
every string). -/
def occursIn (pat : List Char) : List Char → Bool
  | [] => pat.isEmpty
  | c :: tl => leadsWith pat (c :: tl) || occursIn pat tl

/-- Python `x in s` on strings. -/
def pyIn (x s : String) : Bool := occursIn x.data s.data

/-- `Vec::join(",")` of the substitution keys (`.keys().join(",")` in
`main.rs`). -/
def joinKeys : List String → String
  | [] => ""
  | [k] => k
  | k :: ks => k ++ "," ++ joinKeys ks

/-- Lookup in the Python dict produced by `serde_json::to_string` of the
substitution map: `none` models a raised `KeyError`. Keys of a JSON
object are unique, so first-match lookup is exact lookup. -/
def pyDictGet : List (String × String) → String → Option String
  | [], _ => none
  | (k, v) :: rest, key => if k = key then some v else pyDictGet rest key

/-- Evaluation of the generated email callback
`return email if email.decode() not in "<keys joined by ,>" else
<json dict>[email.decode()].encode()` on one email identity.
`subs` is the `email_substitutions` map in its iteration order.
`none` models a `KeyError` crash of the callback. -/
def emailCleaner (subs : List (String × String)) (email : String) : Option String :=
  if pyIn email (joinKeys (subs.map Prod.fst)) then pyDictGet subs email
  else some email

/-- `re.search rx name`: for patterns free of regex metacharacters (the
only ones used in this development) `re.search` succeeds exactly when the
pattern occurs as a substring of the name. -/
def reSearch (pat s : String) : Bool := occursIn pat.data s.data

/-- Evaluation of the generated name callback
`for rx in [keys]: if re.search(rx, name.decode()): return
<json dict>[rx].encode()` / `return name` on one author name.
`subs` is the `name_substitutions` map in its iteration order. -/
def nameCleaner (subs : List (String × String)) (name : String) : Option String :=
  match subs.find? (fun kv => reSearch kv.1 name) with
  | some kv => pyDictGet subs kv.1
  | none => some name

/-- `format!("\"{v}\"")` applied to a key. -/
def quoteKey (k : String) : String := "\"" ++ k ++ "\""

/-- One `"key":"value"` entry of the `serde_json` dump. -/
def jsonPair (kv : String × String) : String := quoteKey kv.1 ++ ":" ++ quoteKey kv.2

/-- `serde_json::to_string` of a string map, in iteration order. -/
def jsonDump (subs : List (String × String)) : String :=
  "\x7b" ++ joinKeys (subs.map jsonPair) ++ "\x7d"

/-- The text of the generated email callback (the `email_cleaner` string
built at lines 89-93 of `main.rs`). -/
def emailCleanerSrc (subs : List (String × String)) : String :=
  "return email if email.decode() not in \"" ++ joinKeys (subs.map Prod.fst)
    ++ "\" else " ++ jsonDump subs ++ "[email.decode()].encode()"

/-- The text of the generated name callback (the `name_cleaner` string
built at lines 95-103 of `main.rs`). -/
def nameCleanerSrc (subs : List (String × String)) : String :=
  "for rx in [" ++ joinKeys (subs.map (fun kv => quoteKey kv.1))
    ++ "]:\n    print(rx, name)\n    if re.search(rx, name.decode()):\n        return "
    ++ jsonDump subs ++ "[rx].encode()\nreturn name"

/-! ## Paths: `Path::join` and `Path::with_extension` -/

/-- `Path::join` with a relative right-hand side. -/
def pathJoin (a b : String) : String := ⟨a.data ++ '/' :: b.data⟩

/-- `lastSplit c l = some (a, b)` exactly when `l = a ++ c :: b` with `c`
not occurring in `b` (split at the last occurrence of `c`); `none` when
`c` does not occur in `l`. -/
def lastSplit (c : Char) : List Char → Option (List Char × List Char)
  | [] => none
  | x :: xs =>
    match lastSplit c xs with
    | some (a, b) => some (x :: a, b)
    | none => if x = c then some ([], xs) else none

/-- `Path::file_stem` of a single path component: the part before the
last dot, the whole name when there is no dot or the only dot is the
leading character. -/
def fileStem (n : List Char) : List Char :=
  match lastSplit '.' n with
  | none => n
  | some ([], _) => n
  | some (a :: as, _) => a :: as

/-- `Path::with_extension` on the character list of a path: replace the
extension of the last `/`-separated component by `ext`. -/
def withExtensionChars (p ext : List Char) : List Char :=
  match lastSplit '/' p with
  | none => fileStem p ++ '.' :: ext
  | some (d, n) => d ++ '/' :: (fileStem n ++ '.' :: ext)

/-- `Path::with_extension` on strings. -/
def withExtension (p ext : String) : String := ⟨withExtensionChars p.data ext.data⟩

/-- The mirror directory `repos.join(repo)` (line 114 of `main.rs`). -/
def repoDir (repos repo : String) : String := pathJoin repos repo

/-- The whole-repository backup archive path
`backups.join(repo).with_extension("tar")` (line 187 of `main.rs`). -/
def wholeBackupPath (backups repo : String) : String :=
  withExtension (pathJoin backups repo) "tar"

/-- The per-branch backup archive path
`backups.join(repo).join(branch).with_extension("tar")` (line 203 of
`main.rs`). -/
def branchBackupPath (backups repo branch : String) : String :=
  withExtension (pathJoin (pathJoin backups repo) branch) "tar"

/-- Modelled from the spec: the whole-repository backup path as the spec
states it, `<workdir>/backups/<org>/<name>.tar`. -/
def specWholeBackupPath (backups repo : String) : String :=
  pathJoin backups repo ++ ".tar"

/-- Modelled from the spec: the per-branch backup path as the spec states
it, `<workdir>/backups/<org>/<name>/<branch>.tar`. -/
def specBranchBackupPath (backups repo branch : String) : String :=
  pathJoin (pathJoin backups repo) branch ++ ".tar"

/-! ## Control flow of `main` as event traces -/

/-- Externally visible steps of `main`, in program order. -/
inductive Event where
  /-- `std::fs::create_dir_all(repo_dir)` (line 137), before the clone. -/
  | createDir (path : String)
  /-- the clone of line 140-142 succeeded -/
  | cloneOk
  /-- clone failed with `ErrorCode::Exists`; the existing mirror was
  opened in place (line 153) -/
  | cloneOpenExisting
  /-- clone (or the fallback open) failed; `continue` to the next
  repository after the `warn!` logs -/
  | skipRepo
  /-- `git pull --all` (line 174) -/
  | pull
  /-- the whole-repository tar archive was written and closed
  (lines 187-190) -/
  | wholeBackup (path : String)
  /-- the per-branch tar archive was written and closed (lines 202-206) -/
  | branchBackup (branch : String) (path : String)
  /-- `git checkout <branch>` (line 211) -/
  | checkout (branch : String)
  /-- `git filter-repo --force --partial --sdr --name-callback ...`
  (line 217) -/
  | filterName (branch : String)
  /-- `git filter-repo --force --partial --sdr --email-callback ...`
  (line 225) -/
  | filterEmail (branch : String)
  /-- the garbage-collection command of lines 240-244: the spawned
  program and its argument vector -/
  | gcCmd (program : String) (args : List String)
  /-- the re-signing rebase sequence of lines 249-271 -/
  | resign
  /-- `warn!("Unable to re-sign history ...")` with the branch count
  (line 275) -/
  | warnResignSkipped (count : Nat)
  /-- `git push --all --force` in the repository's mirror (line 291) -/
  | push (repo : String)
  /-- an `.expect(...)` panicked: the process aborts -/
  | panicked
  deriving DecidableEq

/-- Result of the clone attempt of lines 140-142. -/
inductive CloneResult where
  | ok
  | errExists
  | errOther
  deriving DecidableEq

/-- Outcomes of the external operations for one repository, i.e. the
environment the program runs against. -/
structure RepoEnv where
  /-- outcome of `RepoBuilder::clone` -/
  cloneResult : CloneResult
  /-- outcome of `Repository::open` on the existing mirror -/
  openOk : Bool
  /-- the whole-repository tar write succeeds -/
  wholeBackupOk : Bool
  /-- branches whose tar write fails -/
  branchBackupFail : List String
  /-- branch names yielded by `repository.branches(None)` -/
  branches : List String
  deriving DecidableEq

/-- Per-repository result of the Prepare phase. -/
inductive RepoOutcome where
  /-- clone/open failed: `continue` to the next repository -/
  | skipped
  /-- a backup write failed: the `?` operator propagates the error out of
  `main`, ending the whole run -/
  | abortedRun
  /-- the loop body ran to completion; the payload is the final value of
  the `branches` counter -/
  | done (branchCount : Nat)
  deriving DecidableEq

/-- The four events of one iteration of the branch loop (lines 200-232):
branch backup, checkout, name rewrite, email rewrite. -/
def branchBlock (backups repo b : String) : List Event :=
  [.branchBackup b (branchBackupPath backups repo b), .checkout b,
   .filterName b, .filterEmail b]

/-- The branch loop of lines 194-233. A failing tar write aborts the loop
(Bool component `true`); the Nat component is the final value of the
`branches` counter, incremented once per completed iteration. -/
def processBranches (backups repo : String) (failSet : List String) :
    List String → List Event × Bool × Nat
  | [] => ([], false, 0)
  | b :: bs =>
    if b ∈ failSet then ([], true, 0)
    else
      let r := processBranches backups repo failSet bs
      (branchBlock backups repo b ++ r.1, r.2.1, r.2.2 + 1)

/-- The garbage-collection invocation of lines 240-244:
`Command::new("git").args(["git", "gc", "--prune=now", "--aggressive"])`. -/
def gcEvent : Event := .gcCmd "git" ["git", "gc", "--prune=now", "--aggressive"]

/-- When `Command::new "git"` is spawned, git interprets the first
element of the argument vector as its subcommand. -/
def gitSubcommandOf (args : List String) : Option String := args.head?

/-- Lines 171-278: everything after a repository handle was obtained —
pull, whole backup, branch loop, gc, optional resign, resign warning. -/
def afterCloneEvents (backups repo : String) (sign : Bool) (env : RepoEnv) :
    List Event × RepoOutcome :=
  if env.wholeBackupOk then
    let r := processBranches backups repo env.branchBackupFail env.branches
    if r.2.1 then
      (Event.pull :: Event.wholeBackup (wholeBackupPath backups repo) :: r.1, .abortedRun)
    else
      (Event.pull :: Event.wholeBackup (wholeBackupPath backups repo) :: r.1
        ++ [gcEvent]
        ++ (if sign && r.2.2 == 1 then [Event.resign] else [])
        ++ (if r.2.2 != 1 then [Event.warnResignSkipped r.2.2] else []),
       .done r.2.2)
  else ([Event.pull], .abortedRun)

/-- One iteration of the Prepare loop (lines 112-279) for one repository:
directory creation, clone with its `Exists` fallback, then the post-clone
stages. -/
def processRepo (repos backups : String) (sign : Bool) (repo : String)
    (env : RepoEnv) : List Event × RepoOutcome :=
  match env.cloneResult with
  | .ok =>
    let r := afterCloneEvents backups repo sign env
    (Event.createDir (repoDir repos repo) :: Event.cloneOk :: r.1, r.2)
  | .errOther => ([Event.createDir (repoDir repos repo), Event.skipRepo], .skipped)
  | .errExists =>
    if env.openOk then
      let r := afterCloneEvents backups repo sign env
      (Event.createDir (repoDir repos repo) :: Event.cloneOpenExisting :: r.1, r.2)
    else ([Event.createDir (repoDir repos repo), Event.skipRepo], .skipped)

/-- The Prepare phase over the configured repository list. A repository
whose backup write failed ends the whole run (`?` out of `main`): no
later repository is processed. -/
def prepareFleet (repos backups : String) (sign : Bool) :
    List (String × RepoEnv) → List (String × List Event × RepoOutcome)
  | [] => []
  | (r, env) :: rest =>
    let p := processRepo repos backups sign r env
    if p.2 = .abortedRun then [(r, p.1, p.2)]
    else (r, p.1, p.2) :: prepareFleet repos backups sign rest

/-- Mirror directories created by a Prepare run (every `createDir` event
of its traces). -/
def createdDirs (res : List (String × List Event × RepoOutcome)) : List String :=
  res.flatMap (fun e => e.2.1.filterMap
    (fun ev => match ev with | .createDir p => some p | _ => none))

/-- Repositories whose Prepare iteration ran to completion. -/
def successfullyPrepared (res : List (String × List Event × RepoOutcome)) :
    List String :=
  res.filterMap (fun e => match e.2.2 with | .done _ => some e.1 | _ => none)

/-- The Publish phase (lines 284-298): for each repository in order,
spawn `git push --all --force` with the mirror directory as working
directory. Spawning in a nonexistent directory fails, so the
`.expect(...)` panics and the process aborts; otherwise the push command
runs and its exit status is discarded. -/
def publishFleet (repos : String) (dirs : List String) : List String → List Event
  | [] => []
  | r :: rs =>
    if repoDir repos r ∈ dirs then Event.push r :: publishFleet repos dirs rs
    else [Event.panicked]

/-- Paths of the per-branch archives written in a trace. -/
def branchArchivePaths (t : List Event) : List String :=
  t.filterMap (fun e => match e with | .branchBackup _ p => some p | _ => none)

/-- Paths of the whole-repository archives written in a trace. -/
def wholeArchivePaths (t : List Event) : List String :=
  t.filterMap (fun e => match e with | .wholeBackup p => some p | _ => none)

/-- The repository handle was obtained: the clone succeeded, or it failed
with `Exists` and the fallback open succeeded. -/
def reachesBackup (env : RepoEnv) : Prop :=
  env.cloneResult = .ok ∨ (env.cloneResult = .errExists ∧ env.openOk = true)

/-! ## Helper lemmas -/

theorem processBranches_no_fail (backups repo : String) (failSet : List String) :
    ∀ bs : List String, (∀ b ∈ bs, b ∉ failSet) →
      processBranches backups repo failSet bs =
        (bs.flatMap (branchBlock backups repo), false, bs.length)
  | [], _ => rfl
  | b :: bs, h => by
    have hb : b ∉ failSet := h b (List.mem_cons_self b bs)
    have ih := processBranches_no_fail backups repo failSet bs
      (fun x hx => h x (List.mem_cons_of_mem _ hx))
    simp [processBranches, hb, ih, List.flatMap_cons]

theorem resign_not_mem_blocks (backups repo : String) (bs : List String) :
    Event.resign ∉ bs.flatMap (branchBlock backups repo) := by
  simp [List.mem_flatMap, branchBlock]

theorem warn_not_mem_blocks (backups repo : String) (bs : List String) (n : Nat) :
    Event.warnResignSkipped n ∉ bs.flatMap (branchBlock backups repo) := by
  simp [List.mem_flatMap, branchBlock]

theorem afterClone_no_fail (backups repo : String) (sign : Bool) (env : RepoEnv)
    (hwb : env.wholeBackupOk = true)
    (hbb : ∀ b ∈ env.branches, b ∉ env.branchBackupFail) :
    afterCloneEvents backups repo sign env =
      (Event.pull :: Event.wholeBackup (wholeBackupPath backups repo) ::
        (env.branches.flatMap (branchBlock backups repo)
          ++ [gcEvent]
          ++ (if sign && env.branches.length == 1 then [Event.resign] else [])
          ++ (if env.branches.length != 1 then
                [Event.warnResignSkipped env.branches.length] else [])),
       .done env.branches.length) := by
  have hpb := processBranches_no_fail backups repo env.branchBackupFail env.branches hbb
  rw [afterCloneEvents, hwb]
  simp [hpb]

theorem processRepo_no_fail (repos backups repo : String) (sign : Bool) (env : RepoEnv)
    (hreach : reachesBackup env) (hwb : env.wholeBackupOk = true)
    (hbb : ∀ b ∈ env.branches, b ∉ env.branchBackupFail) :
    ∃ cloneEvt, (cloneEvt = Event.cloneOk ∨ cloneEvt = Event.cloneOpenExisting) ∧
      processRepo repos backups sign repo env =
        (Event.createDir (repoDir repos repo) :: cloneEvt :: Event.pull ::
          Event.wholeBackup (wholeBackupPath backups repo) ::
          (env.branches.flatMap (branchBlock backups repo)
            ++ [gcEvent]
            ++ (if sign && env.branches.length == 1 then [Event.resign] else [])
            ++ (if env.branches.length != 1 then
                  [Event.warnResignSkipped env.branches.length] else [])),
         .done env.branches.length) := by
  have hAC := afterClone_no_fail backups repo sign env hwb hbb
  rcases hreach with h | ⟨h, ho⟩
  · exact ⟨Event.cloneOk, Or.inl rfl, by rw [processRepo, h, hAC]⟩
  · exact ⟨Event.cloneOpenExisting, Or.inr rfl, by rw [processRepo, h, if_pos ho, hAC]⟩

/-! ## Claim theorems -/

/-- Claim C3 (code bug): the generated email callback does not implement
exact-match substitution. Its membership guard is Python substring
membership in the comma-joined key string, so an identity that is a mere
substring of a key takes the substitution branch and crashes with a
`KeyError` (modelled as `none`) instead of being returned unchanged.
Exact keys are substituted correctly and strings unrelated to any key
pass through unchanged. -/
theorem emailCleaner_substring_keyerror :
    emailCleaner [("a@x.com", "b@y.com")] "a@x.com" = some "b@y.com" ∧
    emailCleaner [("a@x.com", "b@y.com")] "a@x" = none ∧
    emailCleaner [("a@x.com", "b@y.com")] "zzz" = some "zzz" := by decide

/-- Claim C9 (code bug): the garbage-collection invocation spawns `git`
with argument vector `["git", "gc", "--prune=now", "--aggressive"]`, so
the git subcommand actually executed is `git` — an invalid subcommand —
not `gc`; git exits with an error, the captured status is discarded, and
no gc/prune pass runs. -/
theorem gc_invokes_git_as_subcommand :
    Event.gcCmd "git" ["git", "gc", "--prune=now", "--aggressive"]
      ∈ (processRepo "cleaner/repos" "cleaner/backups" false "org/a"
          ⟨.ok, true, true, [], ["main"]⟩).1 ∧
    gitSubcommandOf ["git", "gc", "--prune=now", "--aggressive"] = some "git" ∧
    gitSubcommandOf ["git", "gc", "--prune=now", "--aggressive"] ≠ some "gc" := by
  decide

/-- Claim C10 counterexample: `with_extension("tar")` replaces an
existing extension instead of appending `.tar`, so the per-branch backup
path for branch `v1.2` is `.../v1.tar`, not the spec's `.../v1.2.tar`,
and the distinct branches `v1.2` and `v1.3` collide on the same archive
path. -/
theorem backup_path_with_extension_cex :
    branchBackupPath "cleaner/backups" "org/a" "v1.2"
      ≠ specBranchBackupPath "cleaner/backups" "org/a" "v1.2" ∧
    branchBackupPath "cleaner/backups" "org/a" "v1.2"
      = branchBackupPath "cleaner/backups" "org/a" "v1.3" ∧
    ("v1.2" : String) ≠ "v1.3" := by decide

/-- Claim C1 counterexample: a repository with the two branches `v1.2`
and `v1.3` produces only one distinct per-branch archive path (both
branches back up to `.../v1.tar`), so after Prepare fewer than N branch
archives exist. -/
theorem branch_archive_count_cex :
    (branchArchivePaths (processRepo "cleaner/repos" "cleaner/backups" false "org/a"
        ⟨.ok, true, true, [], ["v1.2", "v1.3"]⟩).1).dedup.length = 1 ∧
    (["v1.2", "v1.3"] : List String).length = 2 ∧
    (branchArchivePaths (processRepo "cleaner/repos" "cleaner/backups" false "org/a"
        ⟨.ok, true, true, [], ["v1.2", "v1.3"]⟩).1).dedup.length
      ≠ (["v1.2", "v1.3"] : List String).length := by decide

/-- Claim C4 counterexample: the name patterns live in a `HashMap`, whose
iteration order is an unspecified permutation of the declared order. For
the declared policy `[("Alice", "A"), ("Bob", "B")]` and the name
`"Alice Bob"`, the legal iteration order `[("Bob", "B"), ("Alice", "A")]`
writes `B`, not the declared-first replacement `A`. -/
theorem name_declared_order_cex :
    ([("Alice", "A"), ("Bob", "B")] : List (String × String)).Perm
      [("Bob", "B"), ("Alice", "A")] ∧
    nameCleaner [("Alice", "A"), ("Bob", "B")] "Alice Bob" = some "A" ∧
    nameCleaner [("Bob", "B"), ("Alice", "A")] "Alice Bob" = some "B" ∧
    ("A" : String) ≠ "B" := by decide

/-- Claim C8 counterexample: two runs over the same policy map may
iterate its `HashMap` in different orders; the two orders below are
permutations of one policy yet generate different email and name
callback texts and rewrite the name `"ab"` differently. -/
theorem predicate_order_nondeterminism_cex :
    ([("a", "X"), ("b", "Y")] : List (String × String)).Perm
      [("b", "Y"), ("a", "X")] ∧
    nameCleanerSrc [("a", "X"), ("b", "Y")] ≠ nameCleanerSrc [("b", "Y"), ("a", "X")] ∧
    emailCleanerSrc [("a", "X"), ("b", "Y")] ≠ emailCleanerSrc [("b", "Y"), ("a", "X")] ∧
    nameCleaner [("a", "X"), ("b", "Y")] "ab" ≠ nameCleaner [("b", "Y"), ("a", "X")] "ab" := by
  decide

/-- Claim C2 counterexample: `create_dir_all` runs before the clone, so a
repository whose clone fails still leaves a mirror directory behind;
the Publish phase then force-pushes it although it was never successfully
prepared. -/
theorem publish_unprepared_cex :
    successfullyPrepared (prepareFleet "cleaner/repos" "cleaner/backups" false
      [("org/a", ⟨.errOther, true, true, [], []⟩)]) = [] ∧
    publishFleet "cleaner/repos"
      (createdDirs (prepareFleet "cleaner/repos" "cleaner/backups" false
        [("org/a", ⟨.errOther, true, true, [], []⟩)])) ["org/a"]
      = [Event.push "org/a"] := by decide

/-- Claim C6 counterexample: a whole-repository backup write failure on
`org/a` ends the entire run via the `?` operator — the perfectly healthy
`org/b` that follows in the fleet is never processed, contradicting
"continue with the next repository". -/
theorem backup_failure_fleet_cex :
    prepareFleet "cleaner/repos" "cleaner/backups" false
      [("org/a", ⟨.ok, true, false, [], []⟩), ("org/b", ⟨.ok, true, true, [], []⟩)]
      = [("org/a", [Event.createDir "cleaner/repos/org/a", Event.cloneOk, Event.pull],
          RepoOutcome.abortedRun)] ∧
    ("org/b" : String) ∉ (prepareFleet "cleaner/repos" "cleaner/backups" false
      [("org/a", ⟨.ok, true, false, [], []⟩), ("org/b", ⟨.ok, true, true, [], []⟩)]).map
        Prod.fst := by decide

/-- Claim C5: the re-signing sequence runs if and only if the `--sign`
flag was given and the processed-branch count equals 1; for any other
branch count the resign warning is recorded; and in either case the
repository's iteration completes normally (`done`), never as a failure. -/
theorem resign_stage_iff (repos backups repo : String) (sign : Bool) (env : RepoEnv)
    (hreach : reachesBackup env) (hwb : env.wholeBackupOk = true)
    (hbb : ∀ b ∈ env.branches, b ∉ env.branchBackupFail) :
    (Event.resign ∈ (processRepo repos backups sign repo env).1 ↔
      sign = true ∧ env.branches.length = 1) ∧
    (env.branches.length ≠ 1 →
      Event.warnResignSkipped env.branches.length
        ∈ (processRepo repos backups sign repo env).1) ∧
    (processRepo repos backups sign repo env).2 = .done env.branches.length := by
  obtain ⟨cloneEvt, hclone, hrepo⟩ :=
    processRepo_no_fail repos backups repo sign env hreach hwb hbb
  rw [hrepo]
  refine ⟨?_, ?_, rfl⟩
  · by_cases hc : (sign && env.branches.length == 1) = true
    · rw [if_pos hc]
      have hrhs : sign = true ∧ env.branches.length = 1 := by simpa using hc
      simp [hrhs]
    · rw [if_neg hc]
      have hrhs : ¬(sign = true ∧ env.branches.length = 1) := by
        intro hand
        exact hc (by simp [hand.1, hand.2])
      simp only [iff_false_intro hrhs, iff_false]
      intro hmem
      rcases hclone with he | he <;> subst he <;>
        by_cases hw : (env.branches.length != 1) = true <;>
          [rw [if_pos hw] at hmem; rw [if_neg hw] at hmem;
           rw [if_pos hw] at hmem; rw [if_neg hw] at hmem] <;>
        simp [List.mem_flatMap, branchBlock, gcEvent] at hmem
  · intro hn
    have hc : (env.branches.length != 1) = true := by simpa using hn
    rw [hc]
    simp

/-- Claim C5 witness: a single-branch repository with `--sign` set does
run the resign stage; one ending with three branches instead records the
warning and still completes. -/
theorem resign_stage_iff_witness :
    Event.resign ∈ (processRepo "cleaner/repos" "cleaner/backups" true "org/a"
      ⟨.ok, true, true, [], ["main"]⟩).1 ∧
    Event.warnResignSkipped 3 ∈ (processRepo "cleaner/repos" "cleaner/backups" true "org/a"
      ⟨.ok, true, true, [], ["main", "dev", "wip"]⟩).1 ∧
    (processRepo "cleaner/repos" "cleaner/backups" true "org/a"
      ⟨.ok, true, true, [], ["main", "dev", "wip"]⟩).2 = .done 3 := by
  refine ⟨?_, ?_, ?_⟩
  · exact (resign_stage_iff "cleaner/repos" "cleaner/backups" "org/a" true
      ⟨.ok, true, true, [], ["main"]⟩ (Or.inl rfl) rfl (by simp)).1.mpr ⟨rfl, rfl⟩
  · exact (resign_stage_iff "cleaner/repos" "cleaner/backups" "org/a" true
      ⟨.ok, true, true, [], ["main", "dev", "wip"]⟩ (Or.inl rfl) rfl (by simp)).2.1
      (by decide)
  · exact (resign_stage_iff "cleaner/repos" "cleaner/backups" "org/a" true
      ⟨.ok, true, true, [], ["main", "dev", "wip"]⟩ (Or.inl rfl) rfl (by simp)).2.2

/-- Claim C7: if the clone fails with the `Exists` condition and the
existing mirror opens, the repository is processed exactly as a freshly
cloned one (same post-clone trace, same outcome); if the clone fails for
any other reason the repository is skipped with no further stages and the
run continues with the next repository. -/
theorem clone_fallback_and_skip (repos backups r : String) (sign : Bool)
    (env : RepoEnv) (rest : List (String × RepoEnv)) :
    (env.cloneResult = .errExists → env.openOk = true →
      (processRepo repos backups sign r env).1
        = Event.createDir (repoDir repos r) :: Event.cloneOpenExisting ::
            ((processRepo repos backups sign r { env with cloneResult := .ok }).1.drop 2) ∧
      (processRepo repos backups sign r env).2
        = (processRepo repos backups sign r { env with cloneResult := .ok }).2) ∧
    (env.cloneResult = .errOther →
      (processRepo repos backups sign r env)
        = ([Event.createDir (repoDir repos r), Event.skipRepo], .skipped) ∧
      prepareFleet repos backups sign ((r, env) :: rest)
        = (r, [Event.createDir (repoDir repos r), Event.skipRepo], RepoOutcome.skipped)
            :: prepareFleet repos backups sign rest) := by
  constructor
  · intro hc ho
    rw [processRepo, hc, if_pos ho]
    constructor
    · simp [processRepo, afterCloneEvents]
    · simp [processRepo, afterCloneEvents]
  · intro hc
    have h1 : processRepo repos backups sign r env
        = ([Event.createDir (repoDir repos r), Event.skipRepo], .skipped) := by
      rw [processRepo, hc]
    refine ⟨h1, ?_⟩
    rw [prepareFleet, h1]
    simp

/-- Claim C7 witness: with an `Exists` clone failure and a successful
open, the repository runs the same stages as a fresh clone; with another
clone failure it is skipped and the next repository is still processed. -/
theorem clone_fallback_and_skip_witness :
    ((processRepo "cleaner/repos" "cleaner/backups" false "org/a"
        ⟨.errExists, true, true, [], ["main"]⟩).1
      = Event.createDir (repoDir "cleaner/repos" "org/a") :: Event.cloneOpenExisting ::
          ((processRepo "cleaner/repos" "cleaner/backups" false "org/a"
            ⟨.ok, true, true, [], ["main"]⟩).1.drop 2) ∧
     (processRepo "cleaner/repos" "cleaner/backups" false "org/a"
        ⟨.errExists, true, true, [], ["main"]⟩).2
      = (processRepo "cleaner/repos" "cleaner/backups" false "org/a"
          ⟨.ok, true, true, [], ["main"]⟩).2) ∧
    (processRepo "cleaner/repos" "cleaner/backups" false "org/b"
        ⟨.errOther, true, true, [], []⟩
      = ([Event.createDir (repoDir "cleaner/repos" "org/b"), Event.skipRepo], .skipped) ∧
     prepareFleet "cleaner/repos" "cleaner/backups" false
        [("org/b", ⟨.errOther, true, true, [], []⟩), ("org/c", ⟨.ok, true, true, [], []⟩)]
      = ("org/b", [Event.createDir (repoDir "cleaner/repos" "org/b"), Event.skipRepo],
          RepoOutcome.skipped)
          :: prepareFleet "cleaner/repos" "cleaner/backups" false
              [("org/c", ⟨.ok, true, true, [], []⟩)]) := by
  refine ⟨?_, ?_⟩
  · exact (clone_fallback_and_skip "cleaner/repos" "cleaner/backups" "org/a" false
      ⟨.errExists, true, true, [], ["main"]⟩ []).1 rfl rfl
  · exact (clone_fallback_and_skip "cleaner/repos" "cleaner/backups" "org/b" false
      ⟨.errOther, true, true, [], []⟩ [("org/c", ⟨.ok, true, true, [], []⟩)]).2 rfl

theorem processBranches_abort (backups repo : String) (failSet : List String) :
    ∀ bs : List String, ∀ b ∈ bs, b ∈ failSet →
      (processBranches backups repo failSet bs).2.1 = true ∧
      Event.filterName b ∉ (processBranches backups repo failSet bs).1 ∧
      Event.filterEmail b ∉ (processBranches backups repo failSet bs).1
  | x :: bs, b, hb, hfail => by
    by_cases hx : x ∈ failSet
    · rw [processBranches, if_pos hx]
      simp
    · have hbx : b ≠ x := fun h => hx (h ▸ hfail)
      have hbs : b ∈ bs := by
        rcases List.mem_cons.mp hb with h | h
        · exact absurd h hbx
        · exact h
      have ih := processBranches_abort backups repo failSet bs b hbs hfail
      rw [processBranches, if_neg hx]
      refine ⟨by simpa using ih.1, ?_, ?_⟩ <;>
        simp only [List.mem_append, branchBlock, List.mem_cons] <;>
        rintro (h | h)
      · rcases h with h | h | h | h <;> simp_all
      · exact ih.2.1 h
      · rcases h with h | h | h | h <;> simp_all
      · exact ih.2.2 h

/-- Claim C6 (amended): a failure to write a backup archive aborts the
remaining stages for that repository — in particular the rewrite commands
of the branch whose backup failed never run — but it also ends the entire
run via the `?` operator: no later repository in the fleet is processed. -/
theorem backup_failure_aborts_run (repos backups r : String) (sign : Bool)
    (env : RepoEnv) (rest : List (String × RepoEnv)) (b : String)
    (hreach : reachesBackup env) (hb : b ∈ env.branches)
    (hfail : b ∈ env.branchBackupFail) :
    (processRepo repos backups sign r env).2 = .abortedRun ∧
    Event.filterName b ∉ (processRepo repos backups sign r env).1 ∧
    Event.filterEmail b ∉ (processRepo repos backups sign r env).1 ∧
    prepareFleet repos backups sign ((r, env) :: rest)
      = [(r, (processRepo repos backups sign r env).1, RepoOutcome.abortedRun)] := by
  have core : (afterCloneEvents backups r sign env).2 = .abortedRun ∧
      Event.filterName b ∉ (afterCloneEvents backups r sign env).1 ∧
      Event.filterEmail b ∉ (afterCloneEvents backups r sign env).1 := by
    by_cases hwb : env.wholeBackupOk = true
    · have hpb := processBranches_abort backups r env.branchBackupFail env.branches b hb hfail
      rw [afterCloneEvents, hwb]
      simp only [if_true, hpb.1]
      refine ⟨trivial, ?_, ?_⟩ <;>
        simp only [List.mem_cons] <;>
        rintro (h | h | h) <;>
        first
          | exact Event.noConfusion h
          | exact hpb.2.1 h
          | exact hpb.2.2 h
    · rw [afterCloneEvents, if_neg hwb]
      simp
  have main : (processRepo repos backups sign r env).2 = .abortedRun ∧
      Event.filterName b ∉ (processRepo repos backups sign r env).1 ∧
      Event.filterEmail b ∉ (processRepo repos backups sign r env).1 := by
    rcases hreach with h | ⟨h, ho⟩
    · rw [processRepo, h]
      refine ⟨core.1, ?_, ?_⟩ <;>
        simp only [List.mem_cons] <;>
        rintro (hm | hm | hm) <;>
        first
          | exact Event.noConfusion hm
          | exact core.2.1 hm
          | exact core.2.2 hm
    · rw [processRepo, h, if_pos ho]
      refine ⟨core.1, ?_, ?_⟩ <;>
        simp only [List.mem_cons] <;>
        rintro (hm | hm | hm) <;>
        first
          | exact Event.noConfusion hm
          | exact core.2.1 hm
          | exact core.2.2 hm
  refine ⟨main.1, main.2.1, main.2.2, ?_⟩
  rw [prepareFleet]
  simp [main.1]

/-- Claim C6 witness: with branch `main` of `org/a` failing its backup
write, the iteration aborts, `main` is never rewritten, and the following
repository `org/b` is not reached. -/
theorem backup_failure_aborts_run_witness :
    (processRepo "cleaner/repos" "cleaner/backups" false "org/a"
      ⟨.ok, true, true, ["main"], ["main"]⟩).2 = .abortedRun ∧
    Event.filterName "main" ∉ (processRepo "cleaner/repos" "cleaner/backups" false "org/a"
      ⟨.ok, true, true, ["main"], ["main"]⟩).1 ∧
    Event.filterEmail "main" ∉ (processRepo "cleaner/repos" "cleaner/backups" false "org/a"
      ⟨.ok, true, true, ["main"], ["main"]⟩).1 ∧
    prepareFleet "cleaner/repos" "cleaner/backups" false
      [("org/a", ⟨.ok, true, true, ["main"], ["main"]⟩),
       ("org/b", ⟨.ok, true, true, [], []⟩)]
      = [("org/a", (processRepo "cleaner/repos" "cleaner/backups" false "org/a"
            ⟨.ok, true, true, ["main"], ["main"]⟩).1, RepoOutcome.abortedRun)] :=
  backup_failure_aborts_run "cleaner/repos" "cleaner/backups" "org/a" false
    ⟨.ok, true, true, ["main"], ["main"]⟩ [("org/b", ⟨.ok, true, true, [], []⟩)] "main"
    (Or.inl rfl) (by simp) (by simp)

/-- Claim C2 (amended): the Publish phase pushes a repository only when
its mirror directory exists, and a repository whose mirror directory is
missing is never pushed — spawning git there makes the `.expect` panic,
which aborts the whole remaining run rather than failing only that
repository. Because the mirror directory is created before the clone
attempt, directory existence does not witness successful preparation:
every processed repository's directory is created whatever its clone
outcome. -/
theorem publish_guard (repos : String) (dirs : List String) (l : List String)
    (r : String) :
    (Event.push r ∈ publishFleet repos dirs l → r ∈ l ∧ repoDir repos r ∈ dirs) ∧
    (r ∈ l → repoDir repos r ∉ dirs →
      Event.push r ∉ publishFleet repos dirs l ∧
      Event.panicked ∈ publishFleet repos dirs l) ∧
    (∀ (backups : String) (sign : Bool) (env : RepoEnv),
      Event.createDir (repoDir repos r) ∈ (processRepo repos backups sign r env).1) := by
  refine ⟨?_, ?_, ?_⟩
  · induction l with
    | nil => intro h; exact absurd h (by simp [publishFleet])
    | cons x xs ih =>
      intro h
      rw [publishFleet] at h
      by_cases hx : repoDir repos x ∈ dirs
      · rw [if_pos hx] at h
        rcases List.mem_cons.mp h with h | h
        · have : r = x := by injection h
          subst this
          exact ⟨List.mem_cons_self r xs, hx⟩
        · have := ih h
          exact ⟨List.mem_cons_of_mem x this.1, this.2⟩
      · rw [if_neg hx] at h
        simp at h
  · induction l with
    | nil => intro h; exact absurd h (by simp)
    | cons x xs ih =>
      intro hr hd
      rw [publishFleet]
      by_cases hx : repoDir repos x ∈ dirs
      · rw [if_pos hx]
        have hrx : r ≠ x := fun h => hd (h ▸ hx)
        have hxs : r ∈ xs := by
          rcases List.mem_cons.mp hr with h | h
          · exact absurd h hrx
          · exact h
        have := ih hxs hd
        refine ⟨?_, List.mem_cons_of_mem _ this.2⟩
        intro hmem
        rcases List.mem_cons.mp hmem with h | h
        · exact hrx (by injection h)
        · exact this.1 h
      · rw [if_neg hx]
        simp
  · intro backups sign env
    rcases h : env.cloneResult with _ | _ | _
    · rw [processRepo, h]; simp
    · rw [processRepo, h]
      by_cases ho : env.openOk = true
      · rw [if_pos ho]; simp
      · rw [if_neg ho]; simp
    · rw [processRepo, h]; simp

/-- Claim C2 witness: with only `b/x` existing among the mirror
directories, publishing `["a/x", "b/x"]` panics on `a/x` without pushing
it; and the directory of a repository whose clone fails is still
created. -/
theorem publish_guard_witness :
    (Event.push "a/x" ∉ publishFleet "cleaner/repos" ["cleaner/repos/b/x"] ["a/x", "b/x"] ∧
     Event.panicked ∈ publishFleet "cleaner/repos" ["cleaner/repos/b/x"] ["a/x", "b/x"]) ∧
    Event.createDir (repoDir "cleaner/repos" "a/x")
      ∈ (processRepo "cleaner/repos" "cleaner/backups" false "a/x"
          ⟨.errOther, true, true, [], []⟩).1 :=
  ⟨(publish_guard "cleaner/repos" ["cleaner/repos/b/x"] ["a/x", "b/x"] "a/x").2.1
      (by decide) (by decide),
   (publish_guard "cleaner/repos" ["cleaner/repos/b/x"] ["a/x", "b/x"] "a/x").2.2
      "cleaner/backups" false ⟨.errOther, true, true, [], []⟩⟩

theorem pyDictGet_of_mem_nodup :
    ∀ (l : List (String × String)) (k v : String),
      (k, v) ∈ l → (l.map Prod.fst).Nodup → pyDictGet l k = some v
  | (k0, v0) :: tl, k, v, hmem, hnodup => by
    simp only [List.map_cons, List.nodup_cons] at hnodup
    rcases List.mem_cons.mp hmem with h | h
    · injection h with h1 h2
      rw [pyDictGet, if_pos h1.symm, h2]
    · have hk : k0 ≠ k := by
        intro he
        exact hnodup.1 (he ▸ List.mem_map_of_mem Prod.fst h)
      rw [pyDictGet, if_neg hk]
      exact pyDictGet_of_mem_nodup tl k v h hnodup.2

theorem find?_eq_some_of_unique {α : Type} (p : α → Bool) :
    ∀ (l : List α) (a : α), a ∈ l → p a = true →
      (∀ b ∈ l, p b = true → b = a) → l.find? p = some a
  | x :: tl, a, hmem, hp, huniq => by
    by_cases hx : p x = true
    · rw [List.find?_cons_of_pos tl hx]
      exact congrArg some (huniq x (List.mem_cons_self x tl) hx)
    · have hax : a ≠ x := fun h => hx (h ▸ hp)
      have htl : a ∈ tl := by
        rcases List.mem_cons.mp hmem with h | h
        · exact absurd h hax
        · exact h
      rw [List.find?_cons_of_neg tl hx]
      exact find?_eq_some_of_unique p tl a htl hp
        (fun b hb hpb => huniq b (List.mem_cons_of_mem x hb) hpb)

/-- Claim C4 (amended): the name patterns are tested in the iteration
order of the in-memory map — an unspecified permutation of the declared
policy order — and the first pattern matching in that iteration order
determines the replacement; a name matching no pattern is returned
unchanged. (Which of two overlapping patterns applies therefore depends
on the map's iteration order, not on the declared order; see the
counterexample.) -/
theorem nameCleaner_first_match :
    (∀ (l1 l2 : List (String × String)) (kv : String × String) (name : String),
      ((l1 ++ kv :: l2).map Prod.fst).Nodup →
      reSearch kv.1 name = true →
      (∀ q ∈ l1, reSearch q.1 name = false) →
      nameCleaner (l1 ++ kv :: l2) name = some kv.2) ∧
    (∀ (pats : List (String × String)) (name : String),
      (∀ q ∈ pats, reSearch q.1 name = false) →
      nameCleaner pats name = some name) := by
  constructor
  · intro l1 l2 kv name hnodup hkv hnone
    have h1 : l1.find? (fun q => reSearch q.1 name) = none :=
      List.find?_eq_none.mpr (fun q hq => by simp [hnone q hq])
    have h2 : (kv :: l2).find? (fun q => reSearch q.1 name) = some kv :=
      List.find?_cons_of_pos l2 hkv
    rw [nameCleaner, List.find?_append, h1, h2, Option.none_or]
    exact pyDictGet_of_mem_nodup (l1 ++ kv :: l2) kv.1 kv.2 (by simp) hnodup
  · intro pats name hnone
    rw [nameCleaner, List.find?_eq_none.mpr (fun q hq => by simp [hnone q hq])]

/-- Claim C4 witness: with iteration order `[("Bob", "B"), ("Alice", "A")]`
the first matching pattern `Bob` wins on `"Alice Bob"`, and a name
matching no pattern is unchanged. -/
theorem nameCleaner_first_match_witness :
    nameCleaner [("Bob", "B"), ("Alice", "A")] "Alice Bob" = some "B" ∧
    nameCleaner [("Bob", "B"), ("Alice", "A")] "Carol" = some "Carol" := by
  constructor
  · exact nameCleaner_first_match.1 [] [("Alice", "A")] ("Bob", "B") "Alice Bob"
      (by decide) (by decide) (by simp)
  · exact nameCleaner_first_match.2 [("Bob", "B"), ("Alice", "A")] "Carol" (by decide)

/-- Claim C8 (amended): the generated predicates are deterministic
functions of the policy together with the map's iteration order, and the
name rewrite is independent of that order exactly on names that do not
match two distinct patterns: for any two iteration orders (permutations)
of a policy with unique keys, such a name is rewritten identically.
(Names matching two patterns, and the predicate texts themselves, differ
between orders; see the counterexample.) -/
theorem nameCleaner_perm_invariant (p1 p2 : List (String × String)) (name : String)
    (hperm : p1.Perm p2) (hnodup : (p1.map Prod.fst).Nodup)
    (huniq : ∀ q ∈ p1, ∀ q' ∈ p1,
      reSearch q.1 name = true → reSearch q'.1 name = true → q' = q) :
    nameCleaner p1 name = nameCleaner p2 name := by
  cases h1 : p1.find? (fun kv => reSearch kv.1 name) with
  | none =>
    have hno := List.find?_eq_none.mp h1
    have h2 : p2.find? (fun kv => reSearch kv.1 name) = none :=
      List.find?_eq_none.mpr (fun x hx => hno x (hperm.mem_iff.mpr hx))
    rw [nameCleaner, h1, nameCleaner, h2]
  | some kv =>
    have hp := List.find?_some h1
    have hmem := List.mem_of_find?_eq_some h1
    have h2 : p2.find? (fun kv => reSearch kv.1 name) = some kv :=
      find?_eq_some_of_unique _ p2 kv (hperm.mem_iff.mp hmem) hp
        (fun b hb hpb => huniq kv hmem b (hperm.mem_iff.mpr hb) hp hpb)
    have hnodup2 : (p2.map Prod.fst).Nodup := (hperm.map Prod.fst).nodup hnodup
    simp only [nameCleaner, h1, h2]
    rw [pyDictGet_of_mem_nodup p1 kv.1 kv.2 (by simpa using hmem) hnodup,
      pyDictGet_of_mem_nodup p2 kv.1 kv.2
        (by simpa using hperm.mem_iff.mp hmem) hnodup2]

/-- Claim C8 witness: the name `"a cat"` matches only the pattern `a` of
the policy, so both iteration orders rewrite it to `X`. -/
theorem nameCleaner_perm_invariant_witness :
    nameCleaner [("a", "X"), ("b", "Y")] "a cat"
      = nameCleaner [("b", "Y"), ("a", "X")] "a cat" :=
  nameCleaner_perm_invariant [("a", "X"), ("b", "Y")] [("b", "Y"), ("a", "X")]
    "a cat" (by decide) (by decide) (by decide)

theorem lastSplit_none_of_not_mem (c : Char) :
    ∀ l : List Char, c ∉ l → lastSplit c l = none
  | [], _ => rfl
  | x :: xs, h => by
    have hx : ¬x = c := fun he => h (he ▸ List.mem_cons_self x xs)
    have hxs : c ∉ xs := fun hm => h (List.mem_cons_of_mem x hm)
    simp only [lastSplit, lastSplit_none_of_not_mem c xs hxs, if_neg hx]

theorem not_mem_of_lastSplit_none (c : Char) :
    ∀ l : List Char, lastSplit c l = none → c ∉ l
  | [], _ => by simp
  | x :: xs, h => by
    rw [lastSplit] at h
    cases hxs : lastSplit c xs with
    | some p => rw [hxs] at h; exact absurd h (by simp)
    | none =>
      rw [hxs] at h
      by_cases hx : x = c
      · rw [if_pos hx] at h; exact absurd h (by simp)
      · intro hm
        rcases List.mem_cons.mp hm with h' | h'
        · exact hx h'.symm
        · exact not_mem_of_lastSplit_none c xs hxs h'

theorem lastSplit_some_spec (c : Char) :
    ∀ (l a b : List Char), lastSplit c l = some (a, b) → l = a ++ c :: b ∧ c ∉ b
  | [], a, b, h => by simp [lastSplit] at h
  | x :: xs, a, b, h => by
    rw [lastSplit] at h
    cases hxs : lastSplit c xs with
    | some p =>
      obtain ⟨p1, p2⟩ := p
      rw [hxs] at h
      injection h with h'
      injection h' with ha hb
      subst ha; subst hb
      have ih := lastSplit_some_spec c xs p1 p2 hxs
      exact ⟨by rw [List.cons_append, ← ih.1], ih.2⟩
    | none =>
      rw [hxs] at h
      by_cases hx : x = c
      · rw [if_pos hx] at h
        injection h with h'
        injection h' with ha hb
        subst ha; subst hb
        exact ⟨by rw [List.nil_append, hx], not_mem_of_lastSplit_none c xs hxs⟩
      · rw [if_neg hx] at h
        exact absurd h (by simp)

theorem lastSplit_append_of_not_mem (c : Char) (b : List Char) (hb : c ∉ b) :
    ∀ a : List Char, lastSplit c (a ++ c :: b) = some (a, b)
  | [] => by simp [lastSplit, lastSplit_none_of_not_mem c b hb]
  | x :: a => by
    rw [List.cons_append, lastSplit, lastSplit_append_of_not_mem c b hb a]

theorem fileStem_of_no_dot (n : List Char) (h : '.' ∉ n) : fileStem n = n := by
  simp only [fileStem, lastSplit_none_of_not_mem '.' n h]

theorem withExt_no_dot (pre b ext : List Char) (hb : '.' ∉ b) :
    withExtensionChars (pre ++ '/' :: b) ext = (pre ++ '/' :: b) ++ '.' :: ext := by
  by_cases hsl : '/' ∈ b
  · cases hsp : lastSplit '/' b with
    | none => exact absurd hsl (not_mem_of_lastSplit_none '/' b hsp)
    | some p =>
      obtain ⟨b1, b2⟩ := p
      obtain ⟨hb12, hnb2⟩ := lastSplit_some_spec '/' b b1 b2 hsp
      have hdot2 : '.' ∉ b2 := fun hm =>
        hb (hb12 ▸ List.mem_append_of_mem_right _ (List.mem_cons_of_mem _ hm))
      have hre : pre ++ '/' :: b = (pre ++ '/' :: b1) ++ '/' :: b2 := by
        rw [hb12]; simp
      simp only [hre, withExtensionChars, lastSplit_append_of_not_mem '/' b2 hnb2,
        fileStem_of_no_dot b2 hdot2]
      simp
  · have hls := lastSplit_append_of_not_mem '/' b hsl pre
    simp only [withExtensionChars, hls, fileStem_of_no_dot b hb]
    simp

/-- Claim C10 (amended): backup archive paths are built with
`with_extension("tar")`, which replaces the final extension of the last
path component rather than appending `.tar`. The paths therefore agree
with the spec's `<name>.tar` / `<branch>.tar` exactly when the repository
name (resp. branch name) contains no dot, and on dot-free branch names
distinct branches yield distinct archive paths; a branch name containing
a dot is truncated at its last dot, which can make distinct branches
collide (see the counterexample). -/
theorem backup_paths_shape (backups repo b b1 b2 : String)
    (hrepo : '.' ∉ repo.data) (hb : '.' ∉ b.data)
    (h1 : '.' ∉ b1.data) (h2 : '.' ∉ b2.data) :
    wholeBackupPath backups repo = specWholeBackupPath backups repo ∧
    branchBackupPath backups repo b = specBranchBackupPath backups repo b ∧
    (branchBackupPath backups repo b1 = branchBackupPath backups repo b2 → b1 = b2) := by
  have key : ∀ s : String, '.' ∉ s.data → ∀ pre : String,
      withExtension (pathJoin pre s) "tar" = pathJoin pre s ++ ".tar" := by
    intro s hs pre
    apply String.ext
    have hleft : (withExtension (pathJoin pre s) "tar").data
        = withExtensionChars (pre.data ++ '/' :: s.data) "tar".data := rfl
    have hright : (pathJoin pre s ++ ".tar").data
        = (pre.data ++ '/' :: s.data) ++ ".tar".data := String.data_append ..
    rw [hleft, hright, withExt_no_dot pre.data s.data "tar".data hs]
  have keyB : ∀ s : String, '.' ∉ s.data →
      branchBackupPath backups repo s = specBranchBackupPath backups repo s :=
    fun s hs => key s hs (pathJoin backups repo)
  refine ⟨key repo hrepo backups, keyB b hb, ?_⟩
  intro heq
  rw [keyB b1 h1, keyB b2 h2] at heq
  have hd : (pathJoin (pathJoin backups repo) b1).data ++ ".tar".data
      = (pathJoin (pathJoin backups repo) b2).data ++ ".tar".data := by
    have hq := congrArg String.data heq
    rwa [specBranchBackupPath, specBranchBackupPath,
      String.data_append, String.data_append] at hq
  have h3 := List.append_cancel_right hd
  have h3' : (pathJoin backups repo).data ++ '/' :: b1.data
      = (pathJoin backups repo).data ++ '/' :: b2.data := h3
  have h4 := List.append_cancel_left h3'
  have h5 : b1.data = b2.data := by injection h4
  exact String.ext h5

/-- Claim C10 witness: for the dot-free names `org/a`, `main` and `dev`
the code's paths equal the spec's `<name>.tar` and `<branch>.tar` forms,
and path equality implies branch equality. -/
theorem backup_paths_shape_witness :
    wholeBackupPath "cleaner/backups" "org/a"
      = specWholeBackupPath "cleaner/backups" "org/a" ∧
    branchBackupPath "cleaner/backups" "org/a" "main"
      = specBranchBackupPath "cleaner/backups" "org/a" "main" ∧
    (branchBackupPath "cleaner/backups" "org/a" "main"
        = branchBackupPath "cleaner/backups" "org/a" "dev" → ("main" : String) = "dev") :=
  backup_paths_shape "cleaner/backups" "org/a" "main" "main" "dev"
    (by decide) (by decide) (by decide) (by decide)

theorem branchArchivePaths_append (t1 t2 : List Event) :
    branchArchivePaths (t1 ++ t2) = branchArchivePaths t1 ++ branchArchivePaths t2 := by
  simp [branchArchivePaths, List.filterMap_append]

theorem wholeArchivePaths_append (t1 t2 : List Event) :
    wholeArchivePaths (t1 ++ t2) = wholeArchivePaths t1 ++ wholeArchivePaths t2 := by
  simp [wholeArchivePaths, List.filterMap_append]

theorem bAP_createDir (p : String) (t : List Event) :
    branchArchivePaths (Event.createDir p :: t) = branchArchivePaths t := rfl

theorem bAP_cloneOk (t : List Event) :
    branchArchivePaths (Event.cloneOk :: t) = branchArchivePaths t := rfl

theorem bAP_cloneOpenExisting (t : List Event) :
    branchArchivePaths (Event.cloneOpenExisting :: t) = branchArchivePaths t := rfl

theorem bAP_pull (t : List Event) :
    branchArchivePaths (Event.pull :: t) = branchArchivePaths t := rfl

theorem bAP_whole (p : String) (t : List Event) :
    branchArchivePaths (Event.wholeBackup p :: t) = branchArchivePaths t := rfl

theorem bAP_resign_ite (c : Prop) [Decidable c] :
    branchArchivePaths (if c then [Event.resign] else []) = [] := by split <;> rfl

theorem bAP_warn_ite (c : Prop) [Decidable c] (n : Nat) :
    branchArchivePaths (if c then [Event.warnResignSkipped n] else []) = [] := by
  split <;> rfl

theorem wAP_createDir (p : String) (t : List Event) :
    wholeArchivePaths (Event.createDir p :: t) = wholeArchivePaths t := rfl

theorem wAP_cloneOk (t : List Event) :
    wholeArchivePaths (Event.cloneOk :: t) = wholeArchivePaths t := rfl

theorem wAP_cloneOpenExisting (t : List Event) :
    wholeArchivePaths (Event.cloneOpenExisting :: t) = wholeArchivePaths t := rfl

theorem wAP_pull (t : List Event) :
    wholeArchivePaths (Event.pull :: t) = wholeArchivePaths t := rfl

theorem wAP_whole (p : String) (t : List Event) :
    wholeArchivePaths (Event.wholeBackup p :: t) = p :: wholeArchivePaths t := rfl

theorem wAP_resign_ite (c : Prop) [Decidable c] :
    wholeArchivePaths (if c then [Event.resign] else []) = [] := by split <;> rfl

theorem wAP_warn_ite (c : Prop) [Decidable c] (n : Nat) :
    wholeArchivePaths (if c then [Event.warnResignSkipped n] else []) = [] := by
  split <;> rfl

theorem branchArchivePaths_blocks (backups repo : String) :
    ∀ bs : List String,
      branchArchivePaths (bs.flatMap (branchBlock backups repo))
        = bs.map (branchBackupPath backups repo)
  | [] => rfl
  | b :: bs => by
    rw [List.flatMap_cons, branchArchivePaths_append,
      branchArchivePaths_blocks backups repo bs]
    rfl

theorem wholeArchivePaths_blocks (backups repo : String) :
    ∀ bs : List String,
      wholeArchivePaths (bs.flatMap (branchBlock backups repo)) = []
  | [] => rfl
  | b :: bs => by
    rw [List.flatMap_cons, wholeArchivePaths_append,
      wholeArchivePaths_blocks backups repo bs]
    rfl

/-- Claim C1 (amended): in a completing Prepare iteration the whole-repo
archive is written and closed before any rewrite command and before any
branch archive; each branch's archive is written and closed immediately
before that branch's checkout and rewrite commands; exactly one
whole-repository archive is written; and the branch archives written are
exactly one per branch at that branch's path — so the number of distinct
branch archive files equals N exactly when the per-branch paths are
pairwise distinct (which branch names with a dotted last component can
violate; see the counterexample). -/
theorem backups_precede_rewrites (repos backups repo : String) (sign : Bool)
    (env : RepoEnv) (hreach : reachesBackup env) (hwb : env.wholeBackupOk = true)
    (hbb : ∀ b ∈ env.branches, b ∉ env.branchBackupFail) :
    (∃ pre post,
      (processRepo repos backups sign repo env).1
        = pre ++ Event.wholeBackup (wholeBackupPath backups repo) :: post ∧
      ∀ b : String, Event.filterName b ∉ pre ∧ Event.filterEmail b ∉ pre ∧
        ∀ p : String, Event.branchBackup b p ∉ pre) ∧
    (∀ b ∈ env.branches, ∃ pre2 post2,
      (processRepo repos backups sign repo env).1
        = pre2 ++ branchBlock backups repo b ++ post2) ∧
    wholeArchivePaths (processRepo repos backups sign repo env).1
      = [wholeBackupPath backups repo] ∧
    branchArchivePaths (processRepo repos backups sign repo env).1
      = env.branches.map (branchBackupPath backups repo) ∧
    ((env.branches.map (branchBackupPath backups repo)).Nodup →
      (branchArchivePaths (processRepo repos backups sign repo env).1).dedup.length
        = env.branches.length) := by
  obtain ⟨ce, hce, hrepo⟩ := processRepo_no_fail repos backups repo sign env hreach hwb hbb
  have hT : (processRepo repos backups sign repo env).1
      = Event.createDir (repoDir repos repo) :: ce :: Event.pull ::
        Event.wholeBackup (wholeBackupPath backups repo) ::
        (env.branches.flatMap (branchBlock backups repo)
          ++ [gcEvent]
          ++ (if sign && env.branches.length == 1 then [Event.resign] else [])
          ++ (if env.branches.length != 1 then
                [Event.warnResignSkipped env.branches.length] else [])) := by
    rw [hrepo]
  have hB : branchArchivePaths (processRepo repos backups sign repo env).1
      = env.branches.map (branchBackupPath backups repo) := by
    rw [hT]
    rcases hce with h | h <;> subst h <;>
      [rw [bAP_createDir, bAP_cloneOk]; rw [bAP_createDir, bAP_cloneOpenExisting]] <;>
      rw [bAP_pull, bAP_whole,
        branchArchivePaths_append, branchArchivePaths_append, branchArchivePaths_append,
        branchArchivePaths_blocks backups repo env.branches,
        bAP_resign_ite, bAP_warn_ite] <;>
      simp [branchArchivePaths, gcEvent]
  have hW : wholeArchivePaths (processRepo repos backups sign repo env).1
      = [wholeBackupPath backups repo] := by
    rw [hT]
    rcases hce with h | h <;> subst h <;>
      [rw [wAP_createDir, wAP_cloneOk]; rw [wAP_createDir, wAP_cloneOpenExisting]] <;>
      rw [wAP_pull, wAP_whole,
        wholeArchivePaths_append, wholeArchivePaths_append, wholeArchivePaths_append,
        wholeArchivePaths_blocks backups repo env.branches,
        wAP_resign_ite, wAP_warn_ite] <;>
      simp [wholeArchivePaths, gcEvent]
  refine ⟨?_, ?_, hW, hB, ?_⟩
  · refine ⟨[Event.createDir (repoDir repos repo), ce, Event.pull], _, by rw [hT]; rfl, ?_⟩
    intro b
    rcases hce with h | h <;> subst h <;> simp
  · intro b hb
    obtain ⟨s, t, hst⟩ := List.append_of_mem hb
    refine ⟨[Event.createDir (repoDir repos repo), ce, Event.pull,
        Event.wholeBackup (wholeBackupPath backups repo)]
        ++ s.flatMap (branchBlock backups repo),
      t.flatMap (branchBlock backups repo)
        ++ [gcEvent]
        ++ (if sign && env.branches.length == 1 then [Event.resign] else [])
        ++ (if env.branches.length != 1 then
              [Event.warnResignSkipped env.branches.length] else []), ?_⟩
    rw [hT, hst]
    simp [List.flatMap_append, List.flatMap_cons, List.append_assoc]
  · intro hnd
    rw [hB, List.dedup_eq_self.mpr hnd, List.length_map]

/-- Claim C1 witness: a two-branch repository with dot-free branch names
writes its whole-repository archive before any rewrite, one archive per
branch immediately before that branch's rewrite, and exactly N = 2
distinct branch archives. -/
theorem backups_precede_rewrites_witness :
    (∃ pre post,
      (processRepo "cleaner/repos" "cleaner/backups" false "org/a"
        ⟨.ok, true, true, [], ["main", "dev"]⟩).1
        = pre ++ Event.wholeBackup (wholeBackupPath "cleaner/backups" "org/a") :: post ∧
      ∀ b : String, Event.filterName b ∉ pre ∧ Event.filterEmail b ∉ pre ∧
        ∀ p : String, Event.branchBackup b p ∉ pre) ∧
    (∀ b ∈ (["main", "dev"] : List String), ∃ pre2 post2,
      (processRepo "cleaner/repos" "cleaner/backups" false "org/a"
        ⟨.ok, true, true, [], ["main", "dev"]⟩).1
        = pre2 ++ branchBlock "cleaner/backups" "org/a" b ++ post2) ∧
    wholeArchivePaths (processRepo "cleaner/repos" "cleaner/backups" false "org/a"
        ⟨.ok, true, true, [], ["main", "dev"]⟩).1
      = [wholeBackupPath "cleaner/backups" "org/a"] ∧
    branchArchivePaths (processRepo "cleaner/repos" "cleaner/backups" false "org/a"
        ⟨.ok, true, true, [], ["main", "dev"]⟩).1
      = (["main", "dev"] : List String).map (branchBackupPath "cleaner/backups" "org/a") ∧
    (((["main", "dev"] : List String).map (branchBackupPath "cleaner/backups" "org/a")).Nodup →
      (branchArchivePaths (processRepo "cleaner/repos" "cleaner/backups" false "org/a"
        ⟨.ok, true, true, [], ["main", "dev"]⟩).1).dedup.length
        = (["main", "dev"] : List String).length) :=
  backups_precede_rewrites "cleaner/repos" "cleaner/backups" "org/a" false
    ⟨.ok, true, true, [], ["main", "dev"]⟩ (Or.inl rfl) rfl (by simp)

end RepoCleaner
